import Mathlib

/-!
Shallow embedding of the acknowledgement-tracking and identity-attribution
engine of the IBC relayer benchmark (src/src/tests/IBCRelayerTest.ts and
src/src/utils/IBCQueryHelper.ts), together with proofs checking the
natural-language specification's claims against it.

Conventions:
* JavaScript `Date` values are represented by their millisecond count
  (`Date.prototype.getTime`) as `Int`.
* JavaScript numbers that are only ever integral in the program (heights,
  latencies, sequence numbers) are `Int`/`Nat`; quantities produced by
  division (success rates, averages, uptime hours) are `ℚ`.
* Optional object fields (`field?: T`) are `Option T`; a JS `undefined`
  is `none`.
* Fallible calls (`try`/`catch`, fetch failures) are `Except String`
  values supplied as inputs to the embedded control flow.
-/

namespace IBCRelayerTest

/-- `RelayerTestLog` from `src/types` as constructed throughout
`IBCRelayerTest.ts` (testTime, txHash, packetSequence, success, latency,
plus the optional identity/diagnostic fields). -/
structure RelayerTestLog where
  testTime : Int
  txHash : String
  packetSequence : Nat
  success : Bool
  latency : Int
  targetChainTxHash : Option String := none
  relayerSigner : Option String := none
  memoIdentifier : Option String := none
  receivedAmount : Option String := none
  errorMessage : Option String := none
deriving Repr, DecidableEq

/-- `PacketAcknowledgement` as returned by `waitForAcknowledgement` and the
packet-query helpers. -/
structure PacketAcknowledgement where
  sequence : Nat
  acknowledged : Bool
  ackTime : Option Int := none
  relayerAddress : Option String := none
  memo : Option String := none
  targetTxHash : Option String := none
deriving Repr, DecidableEq

/-- `IBCTransferResult` produced by `sendIBCTransfer`. -/
structure IBCTransferResult where
  txHash : String
  success : Bool
  sequence : Option Nat := none
  error : Option String := none
  timestamp : Int
deriving Repr, DecidableEq

/-! ### Destination-ledger search window (`searchreceiverChainRecvPacket`) -/

/-- `const searchBuffer = 10` (IBCRelayerTest.ts line 683): the ±10 block
window searched around the sampled destination height. -/
def searchBuffer : Int := 10

/-- Default height used when sampling the destination height failed
(`maxHeight = 26500000`, line 675). -/
def defaultSearchHeight : Int := 26500000

/-- `maxHeight` actually used by the search: the sampled height, or the
default when every sampling method failed (reported as `0`). -/
def effectiveSearchHeight (sampled : Int) : Int :=
  if sampled = 0 then defaultSearchHeight else sampled

/-- The tx_search query built at lines 684-688: sequence and source channel
equality constraints plus a height-range constraint. -/
structure TxSearchQuery where
  packetSequence : Nat
  packetSrcChannel : String
  minHeight : Int
  maxHeight : Int
deriving Repr, DecidableEq

/-- `minHeight = Math.max(1, maxHeight - searchBuffer)`,
`maxSearchHeight = maxHeight + searchBuffer`, and the query
`recv_packet.packet_sequence='…' AND recv_packet.packet_src_channel='…'
AND tx.height>=minHeight AND tx.height<=maxSearchHeight`. -/
def buildRecvPacketSearchQuery (channelId : String) (sequence : Nat)
    (maxHeight : Int) : TxSearchQuery :=
  { packetSequence := sequence
    packetSrcChannel := channelId
    minHeight := max 1 (maxHeight - searchBuffer)
    maxHeight := maxHeight + searchBuffer }

/-! ### Metrics aggregation (`generatePerformanceMetrics`) -/

/-- `RelayerPerformanceMetrics` as pushed by `generatePerformanceMetrics`. -/
structure RelayerPerformanceMetrics where
  validatorMoniker : String
  totalTests : Nat
  successfulRelays : Nat
  failedRelays : Nat
  averageLatency : ℚ
  maxLatency : Int
  minLatency : Int
  successRate : ℚ
  uptimeHours : ℚ
  continuousFailures : Nat
  lastActiveTime : Option Int
deriving Repr, DecidableEq

/-- Remove the first occurrence of the substring `pat` from `s`
(JavaScript `s.replace('relayed-by:', '')` replaces only the first
occurrence). Characters are scanned left to right. -/
def removeFirstOccurrence (pat : List Char) : List Char → List Char
  | [] => []
  | c :: rest =>
    if (c :: rest).take pat.length = pat then (c :: rest).drop pat.length
    else c :: removeFirstOccurrence pat rest

/-- The grouping key of a log entry: `log.memoIdentifier` must be truthy
(present and non-empty), and `'relayed-by:'` is removed from it
(`log.memoIdentifier.replace('relayed-by:', '')`, line 1664). -/
def logKey (l : RelayerTestLog) : Option String :=
  match l.memoIdentifier with
  | none => none
  | some m =>
    if m = "" then none
    else some ⟨removeFirstOccurrence "relayed-by:".data m.data⟩

/-- Add a key to the insertion-ordered key list of the `Map` unless already
present (`if (!validatorGroups.has(moniker)) validatorGroups.set(…)`). -/
def addKey (acc : List String) (k : String) : List String :=
  if k ∈ acc then acc else acc ++ [k]

/-- The `Map`'s keys in insertion order: first occurrences of the group
keys of the labelled logs, in log order. -/
def groupKeys (logs : List RelayerTestLog) : List String :=
  (logs.filterMap logKey).foldl addKey []

/-- The group array for key `g`: the labelled logs whose key is `g`, in
log order (entries are pushed while iterating `relayerLogs`). -/
def groupLogs (logs : List RelayerTestLog) (g : String) :
    List RelayerTestLog :=
  logs.filter (fun l => decide (logKey l = some g))

/-- Stable insertion sort by `testTime`, modelling the JS stable in-place
`logs.sort((a, b) => a.testTime.getTime() - b.testTime.getTime())` in
`calculateUptimeHours`.  Inserting an earlier-listed entry before any
tied later entry (`≤`) keeps tied timestamps in their original order,
as the ES2019 stable sort does. -/
def insertByTime (l : RelayerTestLog) :
    List RelayerTestLog → List RelayerTestLog
  | [] => [l]
  | x :: xs =>
    if l.testTime ≤ x.testTime then l :: x :: xs else x :: insertByTime l xs

/-- Sort a group chronologically (stable). -/
def sortByTime : List RelayerTestLog → List RelayerTestLog
  | [] => []
  | x :: xs => insertByTime x (sortByTime xs)

/-- `calculateContinuousFailures`: the longest run of consecutive failed
logs, scanned in list order. -/
def calculateContinuousFailures (logs : List RelayerTestLog) : Nat :=
  (logs.foldl
    (fun (st : Nat × Nat) l =>
      if l.success then (st.1, 0)
      else (max st.1 (st.2 + 1), st.2 + 1))
    (0, 0)).1

/-- `calculateUptimeHours`: span between first and last test time after the
in-place chronological sort, in hours, floor-clamped to `0.1`; `0` for an
empty list. -/
def calculateUptimeHours (logs : List RelayerTestLog) : ℚ :=
  match sortByTime logs with
  | [] => 0
  | x :: xs =>
    let lastT := (xs.getLastD x).testTime
    max (1 / 10) (((lastT - x.testTime : Int) : ℚ) / (1000 * 60 * 60))

/-- `Math.max(...latencies)` over a (possibly empty) latency list, with the
code's `latencies.length > 0 ? … : 0` guard. -/
def maxLatencyOf (latencies : List Int) : Int :=
  match latencies with
  | [] => 0
  | x :: xs => xs.foldl max x

/-- `Math.min(...latencies)` with the same empty-list guard. -/
def minLatencyOf (latencies : List Int) : Int :=
  match latencies with
  | [] => 0
  | x :: xs => xs.foldl min x

/-! #### IEEE-754 binary64 rounding

`successRate` is computed by the program in JavaScript numbers (IEEE-754
binary64): the quotient `successful.length / logs.length` is rounded to
the nearest double, and its product with the exactly representable 100
is rounded again — both division and multiplication are correctly
rounded in IEEE-754.  The value grid of finite doubles and
round-to-nearest, ties-to-even are modelled exactly below; overflow to
infinity cannot be reached by these computations (success rates lie in
`[0, 100]`) and is not modelled.  The other divided metrics fields
(`averageLatency`, `uptimeHours`) stay in exact rational arithmetic: no
claim constrains their rounding. -/

/-- `2^e` for an integer exponent, in a form the kernel evaluates. -/
def pow2 (e : Int) : ℚ :=
  if 0 ≤ e then ((2 ^ e.toNat : ℕ) : ℚ) else 1 / ((2 ^ (-e).toNat : ℕ) : ℚ)

/-- Round to the nearest integer, ties to even. -/
def roundEven (x : ℚ) : ℤ :=
  if x - ⌊x⌋ < 1 / 2 then ⌊x⌋
  else if 1 / 2 < x - ⌊x⌋ then ⌊x⌋ + 1
  else if ⌊x⌋ % 2 = 0 then ⌊x⌋ else ⌊x⌋ + 1

/-- Fuel-driven `⌊log₂⌋` on naturals (`Nat.log2` is well-founded
recursion, which the kernel cannot evaluate; the fuel bounds the number
of halvings, and the starting value always suffices). -/
def log2Go : Nat → Nat → Nat
  | 0, _ => 0
  | fuel + 1, n => if 2 ≤ n then log2Go fuel (n / 2) + 1 else 0

/-- `⌊log₂ n⌋` (0 at 0), evaluating by reduction. -/
def natLog2 (n : Nat) : Nat := log2Go n n

/-- `⌊log₂ a⌋` for a positive rational: the bit-length candidate from
numerator and denominator, which is off by at most one, corrected by
comparison (junk on non-positive input). -/
def qIlog2 (a : ℚ) : ℤ :=
  if pow2 ((natLog2 a.num.toNat : ℤ) - (natLog2 a.den : ℤ) + 1) ≤ a then
    (natLog2 a.num.toNat : ℤ) - (natLog2 a.den : ℤ) + 1
  else if a < pow2 ((natLog2 a.num.toNat : ℤ) - (natLog2 a.den : ℤ)) then
    (natLog2 a.num.toNat : ℤ) - (natLog2 a.den : ℤ) - 1
  else (natLog2 a.num.toNat : ℤ) - (natLog2 a.den : ℤ)

/-- Rounding of a nonnegative value to the binary64 grid: scale into
the 53-bit significand range (the exponent clamped at the subnormal
floor −1074), round the significand to an integer, and scale back. -/
def roundDoublePos (q : ℚ) : ℚ :=
  if q = 0 then 0
  else
    let e : Int := max (-1074) (qIlog2 q - 52)
    (roundEven (q / pow2 e) : ℚ) * pow2 e

/-- Round a real (here rational) value to the nearest IEEE-754 binary64
value, ties to even. -/
def roundDouble (q : ℚ) : ℚ :=
  if q < 0 then -roundDoublePos (-q) else roundDoublePos q

/-- `q` is a finite IEEE-754 binary64 value: an integer significand of
magnitude below `2^53` scaled by `2^e` with `e` in the double range
(−1074 for the smallest subnormal step up to 971 for the largest
binade). -/
def FloatRepr (q : ℚ) : Prop :=
  ∃ m e : ℤ, -2 ^ 53 < m ∧ m < 2 ^ 53 ∧ -1074 ≤ e ∧ e ≤ 971 ∧
    q = (m : ℚ) * pow2 e

/-- The metrics record pushed for one group (`validatorGroups.forEach`
body, lines 1672-1699).  Note the JS property-initialiser order: the call
`calculateUptimeHours(logs)` sorts the group array in place, so
`continuousFailures` and `lastActiveTime` observe the chronologically
sorted array, while the success/latency statistics were computed before
the sort (the sort is a permutation, so they only depend on the multiset
anyway). -/
def metricsFor (moniker : String) (logs : List RelayerTestLog) :
    RelayerPerformanceMetrics :=
  let successful := logs.filter (·.success)
  let failed := logs.filter (fun l => !l.success)
  let latencies := successful.map (·.latency)
  let sorted := sortByTime logs
  { validatorMoniker := moniker
    totalTests := logs.length
    successfulRelays := successful.length
    failedRelays := failed.length
    averageLatency :=
      if 0 < successful.length then
        ((latencies.foldl (· + ·) 0 : Int) : ℚ) / successful.length
      else 0
    maxLatency := maxLatencyOf latencies
    minLatency := minLatencyOf latencies
    successRate :=
      roundDouble (roundDouble ((successful.length : ℚ) / (logs.length : ℚ))
        * 100)
    uptimeHours := calculateUptimeHours logs
    continuousFailures := calculateContinuousFailures sorted
    lastActiveTime :=
      match sorted with
      | [] => none
      | x :: xs => some (xs.getLastD x).testTime }

/-- `generatePerformanceMetrics`: group the labelled logs by moniker in
`Map` insertion order and compute each group's metrics. -/
def generatePerformanceMetrics (logs : List RelayerTestLog) :
    List RelayerPerformanceMetrics :=
  (groupKeys logs).map (fun k => metricsFor k (groupLogs logs k))

/-- The metrics entry reported for moniker `g` (first entry whose
`validatorMoniker` is `g`). -/
def findMetrics (g : String) (ms : List RelayerPerformanceMetrics) :
    Option RelayerPerformanceMetrics :=
  ms.find? (fun m => decide (m.validatorMoniker = g))

/-! ### Acknowledgement tracking (`waitForAcknowledgement` and the packet
query chain) -/

/-- What `searchreceiverChainRecvPacket` returns on a positive match:
`{ txHash, relayerAddress, memo? }` (lines 858-862). -/
structure RecvInfo where
  txHash : String
  relayerAddress : String
  memo : Option String := none
deriving Repr, DecidableEq

/-- Environment consumed by `IBCQueryHelper.queryPacketAcknowledgement`:
the abci query result code, the decoded acknowledgement data (`none` when
`decodeAcknowledgement` yielded nothing), the target-chain transaction
found by `findTargetChainTransaction`, and the wall clock sampled by
`new Date()` at the acknowledged return. -/
structure HelperEnv where
  ackQueryCode : Nat
  ackData : Option String
  targetTx : Option (String × String)
  now : Int
deriving Repr, DecidableEq

/-- The fields of `PacketDetails` consumed by `IBCRelayerTest`
(`sequence`, `acknowledged`, `ackTime`, `relayerAddress`,
`targetTxHash`, `ackData`). -/
structure PacketDetails where
  sequence : Nat
  acknowledged : Bool
  ackTime : Option Int := none
  relayerAddress : Option String := none
  targetTxHash : Option String := none
  ackData : Option String := none
deriving Repr, DecidableEq

/-- `IBCQueryHelper.queryPacketAcknowledgement` (IBCQueryHelper.ts lines
30-96): a non-zero query code or an undecodable acknowledgement yields
`acknowledged:false`; otherwise `acknowledged:true` with
`ackTime: new Date()` and whatever target-transaction evidence was
found. -/
def helperQueryPacketAcknowledgement (sequence : Nat) (env : HelperEnv) :
    PacketDetails :=
  if env.ackQueryCode ≠ 0 then { sequence, acknowledged := false }
  else
    match env.ackData with
    | none => { sequence, acknowledged := false }
    | some d =>
      { sequence
        acknowledged := true
        ackTime := some env.now
        relayerAddress := env.targetTx.map (·.2)
        targetTxHash := env.targetTx.map (·.1)
        ackData := some d }

/-- The target-chain receive transaction found by
`findTargetChainReceiveTransaction` (its `timestamp` is the
`new Date()` recorded at the match). -/
structure TargetTxInfo where
  txHash : String
  relayerAddress : String
  timestamp : Int
  memo : Option String := none
deriving Repr, DecidableEq

/-- `queryAcknowledgementDirect` (lines 1201-1242): acknowledged exactly
when a target transaction was found; its timestamp becomes `ackTime`
(`targetTxInfo?.timestamp || undefined` — a `Date` is always truthy).
A thrown error is caught and yields `acknowledged:false`. -/
def queryAcknowledgementDirect (sequence : Nat) :
    Except String (Option TargetTxInfo) → PacketAcknowledgement
  | .error _ => { sequence, acknowledged := false }
  | .ok info =>
    { sequence
      acknowledged := info.isSome
      ackTime := info.map (·.timestamp)
      relayerAddress := info.map (·.relayerAddress)
      memo := info.bind (·.memo)
      targetTxHash := info.map (·.txHash) }

/-- The environment of one `queryPacketAcknowledgement` call on
`IBCRelayerTest`: either the IBC query helper is available (and its call
either throws — caught at line 1192 — or runs on a `HelperEnv`), or the
direct fallback query runs. -/
inductive AckQueryEnv where
  | helperThrew (msg : String)
  | helper (env : HelperEnv)
  | direct (outcome : Except String (Option TargetTxInfo))
deriving Repr

/-- `IBCRelayerTest.queryPacketAcknowledgement` (lines 1166-1199): use the
helper when present (`memo` is left `undefined` on that path), otherwise
the direct query; any exception is caught and reported as
`acknowledged:false`. -/
def queryPacketAcknowledgement (sequence : Nat) :
    AckQueryEnv → PacketAcknowledgement
  | .helperThrew _ => { sequence, acknowledged := false }
  | .helper env =>
    let d := helperQueryPacketAcknowledgement sequence env
    { sequence := d.sequence
      acknowledged := d.acknowledged
      ackTime := d.ackTime
      relayerAddress := d.relayerAddress
      memo := none
      targetTxHash := d.targetTxHash }
  | .direct outcome => queryAcknowledgementDirect sequence outcome

/-- One iteration of the polling loop in `waitForAcknowledgement`:
the wall clock `now` sampled during the tick (the `new Date()` of the
acknowledged return on the search path), the outcome of strategy 1
(`searchreceiverChainRecvPacket`: a thrown error — caught by the loop's
`try`/`catch` — or an optional match), and the environment of strategy 2
(`queryPacketAcknowledgement`). -/
structure Tick where
  now : Int
  recv : Except String (Option RecvInfo)
  ackEnv : AckQueryEnv
deriving Repr

/-- `waitForAcknowledgement` (lines 570-625).  The tick list is the
sequence of loop iterations the timeout budget admits; exhausting it is
the `Date.now() - startTime < timeout` exit, which returns
`acknowledged:false`.  Strategy 1 winning returns
`ackTime: new Date()` with the strategy's evidence; otherwise strategy 2
is consulted; a caught error falls through to the next tick. -/
def waitForAcknowledgement (sequence : Nat) :
    List Tick → PacketAcknowledgement
  | [] => { sequence, acknowledged := false }
  | t :: rest =>
    match t.recv with
    | .error _ => waitForAcknowledgement sequence rest
    | .ok (some info) =>
      { sequence
        acknowledged := true
        ackTime := some t.now
        relayerAddress := some info.relayerAddress
        memo := info.memo
        targetTxHash := some info.txHash }
    | .ok none =>
      let ack := queryPacketAcknowledgement sequence t.ackEnv
      if ack.acknowledged then ack
      else waitForAcknowledgement sequence rest

/-- All wall-clock samples inside an `AckQueryEnv` are at least `t0`. -/
def AckQueryEnv.timesGE (t0 : Int) : AckQueryEnv → Prop
  | .helperThrew _ => True
  | .helper env => t0 ≤ env.now
  | .direct (.error _) => True
  | .direct (.ok none) => True
  | .direct (.ok (some info)) => t0 ≤ info.timestamp

instance (t0 : Int) : (e : AckQueryEnv) → Decidable (e.timesGE t0)
  | .helperThrew _ => .isTrue trivial
  | .helper env => inferInstanceAs (Decidable (t0 ≤ env.now))
  | .direct (.error _) => .isTrue trivial
  | .direct (.ok none) => .isTrue trivial
  | .direct (.ok (some i)) => inferInstanceAs (Decidable (t0 ≤ i.timestamp))

/-- All wall-clock samples of a tick are at least `t0` (the tick runs
after time `t0`). -/
def Tick.timesGE (t0 : Int) (t : Tick) : Prop :=
  t0 ≤ t.now ∧ t.ackEnv.timesGE t0

instance (t0 : Int) (t : Tick) : Decidable (t.timesGE t0) :=
  inferInstanceAs (Decidable (_ ∧ _))

/-! ### Merging acknowledgements into observations -/

/-- The observation appended on the success path of `runBasicRelayTest`
(lines 204-216): `success` is hard-coded `true`, latency is
`ackTime - transfer timestamp` when `ackTime` is present and `0`
otherwise. -/
def mergeBasicSuccess (testAmount : String) (tr : IBCTransferResult)
    (ack : PacketAcknowledgement) (now : Int) : RelayerTestLog :=
  { testTime := now
    txHash := tr.txHash
    packetSequence := tr.sequence.getD 0
    success := true
    latency :=
      match ack.ackTime with
      | some t => t - tr.timestamp
      | none => 0
    targetChainTxHash := ack.targetTxHash
    relayerSigner := ack.relayerAddress
    memoIdentifier := ack.memo
    receivedAmount := some testAmount }

/-- The observation appended for each probe of `runBatchTest` (lines
255-269): `success` mirrors `ack.acknowledged`; when `ackTime` is absent
the configured timeout is recorded as the latency. -/
def mergeBatchLog (timeoutMs : Int) (tr : IBCTransferResult)
    (ack : PacketAcknowledgement) (now : Int) : RelayerTestLog :=
  { testTime := now
    txHash := tr.txHash
    packetSequence := tr.sequence.getD 0
    success := ack.acknowledged
    latency :=
      match ack.ackTime with
      | some t => t - tr.timestamp
      | none => timeoutMs
    targetChainTxHash := ack.targetTxHash
    relayerSigner := ack.relayerAddress
    memoIdentifier := ack.memo
    errorMessage :=
      if ack.acknowledged then none else some "Acknowledgement timeout" }

/-! ### Sequence extraction (`extractPacketSequence`, lines 1310-1365)

The seven JavaScript regular expressions are hand-translated into
position matchers over `List Char`.  Each regex is concrete enough that
greedy/lazy backtracking collapses to a deterministic scan:

* In `(\d+)"` the continuation `"` is not a digit, so only the maximal
  digit run can be followed by the quote.
* In `\s*"?(\d+)` neither a quote nor a digit is whitespace, so `\s*`
  consumes the maximal whitespace run; if a quote follows, `"?` must
  consume it (a quote is not a digit, so the backtracked branch also
  requires a digit at the quote and fails).
* In `[^"]*","…` the continuation starts with `"`, which `[^"]*` cannot
  contain, so only the maximal non-quote run can match.
* A trailing `"?` at the end of a regex never affects whether it matches
  nor the captured digits, and is dropped.
* `.` in JavaScript does not match line terminators; `\s` does. -/

/-- Match a literal at the head of the input, returning the rest. -/
def stripLit (lit : List Char) (s : List Char) : Option (List Char) :=
  if s.take lit.length = lit then some (s.drop lit.length) else none

/-- Numeric value of a digit run (`parseInt` on a pure-digit capture; the
claims only inspect whether the value is zero or in the small-positive
range, where float rounding of huge captures cannot change the answer,
so `Nat` is a faithful model). -/
def digitsVal (ds : List Char) : Nat :=
  ds.foldl (fun n c => n * 10 + (c.toNat - '0'.toNat)) 0

/-- `(\d+)"`: a nonempty maximal digit run followed by a closing quote. -/
def digitsThenQuote (s : List Char) : Option Nat :=
  let ds := s.takeWhile Char.isDigit
  if ds = [] then none
  else
    match s.drop ds.length with
    | '"' :: _ => some (digitsVal ds)
    | _ => none

/-- JavaScript `\s`: the WhiteSpace and LineTerminator code points
(tab, LF, VT, FF, CR, space, NBSP, Ogham space, the U+2000–U+200A
range, LS, PS, NNBSP, MMSP, ideographic space, and the BOM). -/
def isJsWhitespace (c : Char) : Bool :=
  c = '\t' || c = '\n' || c = '\x0b' || c = '\x0c' || c = '\r' || c = ' ' ||
  c = '\u00A0' || c = '\u1680' || ('\u2000' ≤ c && c ≤ '\u200A') ||
  c = '\u2028' || c = '\u2029' || c = '\u202F' || c = '\u205F' ||
  c = '\u3000' || c = '\uFEFF'

/-- `\s*"?(\d+)`: maximal whitespace, an optional quote, then a nonempty
digit run. -/
def wsOptQuoteDigits (s : List Char) : Option Nat :=
  let s1 := s.dropWhile isJsWhitespace
  let s2 :=
    match s1 with
    | '"' :: rest => rest
    | _ => s1
  let ds := s2.takeWhile Char.isDigit
  if ds = [] then none else some (digitsVal ds)

/-- Pattern 1: `/"packet_sequence","value":"(\d+)"/` at a position. -/
def pat1At (s : List Char) : Option Nat :=
  (stripLit "\"packet_sequence\",\"value\":\"".data s).bind digitsThenQuote

/-- Pattern 2: `/"packet_sequence":"(\d+)"/` at a position. -/
def pat2At (s : List Char) : Option Nat :=
  (stripLit "\"packet_sequence\":\"".data s).bind digitsThenQuote

/-- Pattern 3: `/packet_sequence:\s*"?(\d+)"?/` at a position. -/
def pat3At (s : List Char) : Option Nat :=
  (stripLit "packet_sequence:".data s).bind wsOptQuoteDigits

/-- Pattern 4: `/"sequence":"(\d+)"/` at a position. -/
def pat4At (s : List Char) : Option Nat :=
  (stripLit "\"sequence\":\"".data s).bind digitsThenQuote

/-- Pattern 5: `/sequence:\s*"?(\d+)"?/` at a position. -/
def pat5At (s : List Char) : Option Nat :=
  (stripLit "sequence:".data s).bind wsOptQuoteDigits

/-- Pattern 6:
`/"packet_src_channel":"[^"]*","packet_sequence":"(\d+)"/` at a
position. -/
def pat6At (s : List Char) : Option Nat :=
  (stripLit "\"packet_src_channel\":\"".data s).bind fun s1 =>
    (stripLit "\",\"packet_sequence\":\"".data
      (s1.dropWhile (· ≠ '"'))).bind digitsThenQuote

/-- The tail of pattern 7 after the lazy gap:
`packet_sequence[":=]\s*"?(\d+)"?`. -/
def pat7Tail (s : List Char) : Option Nat :=
  (stripLit "packet_sequence".data s).bind fun s1 =>
    match s1 with
    | c :: rest =>
      if c = '"' || c = ':' || c = '=' then wsOptQuoteDigits rest else none
    | [] => none

/-- The lazy `.*?` gap of pattern 7: try the tail at each offset, moving
right one character at a time; `.` matches anything but the four
LineTerminator code points (LF, CR, LS, PS). -/
def pat7Scan : List Char → Option Nat
  | [] => none
  | c :: rest =>
    match pat7Tail (c :: rest) with
    | some v => some v
    | none =>
      if c = '\n' || c = '\r' || c = '\u2028' || c = '\u2029' then none
      else pat7Scan rest

/-- Pattern 7: `/send_packet.*?packet_sequence[":=]\s*"?(\d+)"?/` at a
position. -/
def pat7At (s : List Char) : Option Nat :=
  (stripLit "send_packet".data s).bind pat7Scan

/-- `rawLog.match(re)` for a single regex: try the matcher at each
position, leftmost match first. -/
def findFirst (m : List Char → Option Nat) : List Char → Option Nat
  | [] => m []
  | c :: rest =>
    match m (c :: rest) with
    | some v => some v
    | none => findFirst m rest

/-- The ordered pattern list of `extractPacketSequence`. -/
def patternMatchers : List (List Char → Option Nat) :=
  [pat1At, pat2At, pat3At, pat4At, pat5At, pat6At, pat7At]

/-- The `for` loop over the patterns: first regex with a match wins. -/
def firstMatchOf : List (List Char → Option Nat) → List Char → Option Nat
  | [], _ => none
  | m :: ms, s =>
    match findFirst m s with
    | some v => some v
    | none => firstMatchOf ms s

/-- The maximal digit runs of the raw log (`rawLog.match(/\d+/g)`),
left to right; the accumulator carries the current run reversed. -/
def digitRunsGo (current : List Char) : List Char → List (List Char)
  | [] => if current = [] then [] else [current.reverse]
  | c :: rest =>
    if c.isDigit then digitRunsGo (c :: current) rest
    else if current = [] then digitRunsGo [] rest
    else current.reverse :: digitRunsGo [] rest

/-- All maximal digit runs of a string. -/
def digitRuns (s : List Char) : List (List Char) :=
  digitRunsGo [] s

/-- The integer-scan fallback (lines 1348-1361): the first embedded
integer in the plausible range `0 < n < 1000000`, else the sentinel 0. -/
def fallbackScan : List (List Char) → Nat
  | [] => 0
  | r :: rs =>
    let v := digitsVal r
    if 0 < v ∧ v < 1000000 then v else fallbackScan rs

/-- `extractPacketSequence(rawLog)`: ordered patterns first, then the
integer-scan fallback, then the sentinel 0.  Total by construction — the
JS function never throws. -/
def extractPacketSequence (rawLog : String) : Nat :=
  match firstMatchOf patternMatchers rawLog.data with
  | some v => v
  | none => fallbackScan (digitRuns rawLog.data)

/-! ### Relayer label resolution (lines 765-797) -/

/-- The probe memo built by `sendIBCTransfer`
(`` `IBC-relay-test-${timestamp}` ``, line 405). -/
def probeMemo (timestamp : Int) : String :=
  "IBC-relay-test-" ++ toString timestamp

/-- JavaScript `String.prototype.trim` over the whitespace the memos can
contain. -/
def jsTrim (s : String) : String :=
  ⟨(((s.data.dropWhile isJsWhitespace).reverse.dropWhile
      isJsWhitespace).reverse)⟩

/-- JavaScript `String.prototype.startsWith`. -/
def jsStartsWith (s pat : String) : Bool :=
  (stripLit pat.data s.data).isSome

/-- The memo-resolution logic applied to the decoded destination
transaction memo (lines 776-790): absent or empty memos resolve to
nothing, the memo is trimmed, and a memo that still carries the
system's own probe marker (`memo.startsWith('IBC-relay-test-')`) is
skipped — otherwise it is the relayer's label. -/
def resolveRelayerMemo : Option String → Option String
  | none => none
  | some m =>
    if m = "" then none
    else
      let t := jsTrim m
      if t ≠ "" ∧ ¬jsStartsWith t "IBC-relay-test-" then some t else none

/-! ### Persistence (`saveTestResults` / `loadExistingLogs`)

The JSON text produced by `JSON.stringify` is modelled as a JSON value
tree; `Date` values serialise to their ISO-8601 string
(`Date.prototype.toJSON`) and the `loadExistingLogs` reviver turns the
`testTime` string back into a date (`new Date(value)`). -/

/-- JSON values. -/
inductive Json where
  | null
  | bool (b : Bool)
  | num (q : ℚ)
  | str (s : String)
  | arr (xs : List Json)
  | obj (fields : List (String × Json))

/-- Gregorian leap year. -/
def isLeapYear (y : Nat) : Bool :=
  (y % 4 = 0 && y % 100 ≠ 0) || y % 400 = 0

/-- Days in a year. -/
def daysInYear (y : Nat) : Nat := if isLeapYear y then 366 else 365

/-- Month lengths of a year. -/
def monthLengths (y : Nat) : List Nat :=
  [31, if isLeapYear y then 29 else 28, 31, 30, 31, 30, 31, 31, 30, 31, 30, 31]

/-- Split a day count since 1970-01-01 into (year, day-of-year),
starting the year scan at `y`; the fuel bounds the number of year steps
(each step consumes at least 365 days, so `d + 1` steps always
suffice). -/
def yearFromDaysGo : Nat → Nat → Nat → Nat × Nat
  | 0, y, d => (y, d)
  | fuel + 1, y, d =>
    if d < daysInYear y then (y, d)
    else yearFromDaysGo fuel (y + 1) (d - daysInYear y)

/-- Split a day count since 1970-01-01 into (year, day-of-year). -/
def yearFromDays (y d : Nat) : Nat × Nat :=
  yearFromDaysGo (d + 1) y d

/-- Split a day-of-year into (1-based month, day-of-month − 1) given the
month lengths. -/
def monthFromDayOfYear : List Nat → Nat → Nat → Nat × Nat
  | [], m, d => (m, d)
  | len :: rest, m, d =>
    if d < len then (m, d) else monthFromDayOfYear rest (m + 1) (d - len)

/-- Zero-padded decimal rendering. -/
def padNum (w n : Nat) : String :=
  let s := toString n
  String.mk (List.replicate (w - s.length) '0') ++ s

/-- `Date.prototype.toISOString` (`YYYY-MM-DDTHH:mm:ss.sssZ`) for the
post-epoch, pre-year-10000 dates the runtime format covers. -/
def dateToISO (t : Int) : String :=
  let msTotal := t.toNat
  let ms := msTotal % 1000
  let secTotal := msTotal / 1000
  let sec := secTotal % 60
  let minTotal := secTotal / 60
  let mi := minTotal % 60
  let hourTotal := minTotal / 60
  let h := hourTotal % 24
  let days := hourTotal / 24
  let yd := yearFromDays 1970 days
  let md := monthFromDayOfYear (monthLengths yd.1) 1 yd.2
  padNum 4 yd.1 ++ "-" ++ padNum 2 md.1 ++ "-" ++ padNum 2 (md.2 + 1) ++
    "T" ++ padNum 2 h ++ ":" ++ padNum 2 mi ++ ":" ++ padNum 2 sec ++
    "." ++ padNum 3 ms ++ "Z"

/-- Value of a nonempty all-digit character list. -/
def digitsToNat? (cs : List Char) : Option Nat :=
  if cs ≠ [] ∧ cs.all Char.isDigit then some (digitsVal cs) else none

/-- Days from 1970-01-01 to the first day of year `y`. -/
def daysUntilYear : Nat → Nat
  | 0 => 0
  | y + 1 => if y + 1 ≤ 1970 then 0 else daysUntilYear y + daysInYear y

/-- Days of year `y` before (1-based) month `mo`. -/
def daysBeforeMonth (y mo : Nat) : Nat :=
  ((monthLengths y).take (mo - 1)).foldl (· + ·) 0

/-- `new Date(value)` on a canonical ISO string: parse the fixed-layout
components and recompute the millisecond count. -/
def parseISO (s : String) : Option Int :=
  match s.data with
  | [y1, y2, y3, y4, '-', mo1, mo2, '-', d1, d2, 'T',
     h1, h2, ':', mi1, mi2, ':', se1, se2, '.', f1, f2, f3, 'Z'] =>
    (digitsToNat? [y1, y2, y3, y4]).bind fun y =>
    (digitsToNat? [mo1, mo2]).bind fun mo =>
    (digitsToNat? [d1, d2]).bind fun dom =>
    (digitsToNat? [h1, h2]).bind fun h =>
    (digitsToNat? [mi1, mi2]).bind fun mi =>
    (digitsToNat? [se1, se2]).bind fun sec =>
    (digitsToNat? [f1, f2, f3]).bind fun ms =>
      if 1 ≤ mo ∧ mo ≤ 12 ∧ 1 ≤ dom then
        let days := daysUntilYear y + daysBeforeMonth y mo + (dom - 1)
        some (((((days * 24 + h) * 60 + mi) * 60 + sec) * 1000 + ms : Nat) : Int)
      else none
  | _ => none

/-- Key lookup among the fields of a JSON object. -/
def getField : List (String × Json) → String → Option Json
  | [], _ => none
  | (k, v) :: rest, key => if k = key then some v else getField rest key

/-- An optional string property: `JSON.stringify` omits `undefined`
properties. -/
def optField (name : String) : Option String → List (String × Json)
  | none => []
  | some v => [(name, Json.str v)]

/-- `JSON.stringify` of one observation: the concrete fields in property
order, optional fields omitted when `undefined`, the `testTime` date as
its ISO string. -/
def encodeLog (l : RelayerTestLog) : Json :=
  Json.obj (
    [("testTime", Json.str (dateToISO l.testTime)),
     ("txHash", Json.str l.txHash),
     ("packetSequence", Json.num l.packetSequence),
     ("success", Json.bool l.success),
     ("latency", Json.num l.latency)]
    ++ optField "targetChainTxHash" l.targetChainTxHash
    ++ optField "relayerSigner" l.relayerSigner
    ++ optField "memoIdentifier" l.memoIdentifier
    ++ optField "receivedAmount" l.receivedAmount
    ++ optField "errorMessage" l.errorMessage)

/-- The string carried by a JSON value, if it is a string. -/
def Json.asString? : Json → Option String
  | .str s => some s
  | _ => none

/-- A JSON number as a natural number. -/
def Json.asNat? : Json → Option Nat
  | .num q => if q.den = 1 ∧ 0 ≤ q.num then some q.num.toNat else none
  | _ => none

/-- A JSON number as an integer. -/
def Json.asInt? : Json → Option Int
  | .num q => if q.den = 1 then some q.num else none
  | _ => none

/-- A JSON boolean. -/
def Json.asBool? : Json → Option Bool
  | .bool b => some b
  | _ => none

/-- An optional string property read back: an absent key is `undefined`,
a present key must hold a string. -/
def getOptString (fs : List (String × Json)) (key : String) :
    Option (Option String) :=
  match getField fs key with
  | none => some none
  | some j => j.asString?.map some

/-- Reading one observation back from its JSON object (`JSON.parse` plus
the `testTime` reviver `new Date(value)`). -/
def decodeLog : Json → Option RelayerTestLog
  | .obj fs =>
    ((getField fs "testTime").bind Json.asString?).bind fun ts =>
    (parseISO ts).bind fun t =>
    ((getField fs "txHash").bind Json.asString?).bind fun tx =>
    ((getField fs "packetSequence").bind Json.asNat?).bind fun seq =>
    ((getField fs "success").bind Json.asBool?).bind fun su =>
    ((getField fs "latency").bind Json.asInt?).bind fun lat =>
    (getOptString fs "targetChainTxHash").bind fun tgt =>
    (getOptString fs "relayerSigner").bind fun sgn =>
    (getOptString fs "memoIdentifier").bind fun memo =>
    (getOptString fs "receivedAmount").bind fun amt =>
    (getOptString fs "errorMessage").map fun err =>
      { testTime := t, txHash := tx, packetSequence := seq, success := su
        latency := lat, targetChainTxHash := tgt, relayerSigner := sgn
        memoIdentifier := memo, receivedAmount := amt, errorMessage := err }
  | _ => none

/-- The whole-log snapshot written by `saveTestResults`
(`JSON.stringify(this.relayerLogs, …)`). -/
def encodeLogs (logs : List RelayerTestLog) : Json :=
  .arr (logs.map encodeLog)

/-- Reading every element of the persisted array back. -/
def decodeLogList : List Json → Option (List RelayerTestLog)
  | [] => some []
  | j :: js => (decodeLog j).bind fun l => (decodeLogList js).map (l :: ·)

/-- Reading the persisted snapshot back as an observation list. -/
def decodeLogs : Json → Option (List RelayerTestLog)
  | .arr xs => decodeLogList xs
  | _ => none

/-- The state of the persisted log file: absent, unparseable
(`JSON.parse` throws), or holding a parsed JSON document. -/
inductive LogFileState where
  | missing
  | corrupt
  | stored (j : Json)

/-- `saveTestResults`' successful write: the whole snapshot replaces the
file. -/
def saveLogsFile (logs : List RelayerTestLog) : LogFileState :=
  .stored (encodeLogs logs)

/-- `loadExistingLogs` (lines 1738-1754): result list and whether the
corrupt-file warning was logged.  A missing file is skipped
(`relayerLogs` keeps the constructor's `[]`); an unparseable file is
caught, warned about, and also yields `[]`; a parsed document is
installed as-is — `none` in the first component marks a document that is
not an observation array (the code would assign that untyped value
verbatim, which a typed log list cannot represent). -/
def loadExistingLogs : LogFileState → Option (List RelayerTestLog) × Bool
  | .missing => (some [], false)
  | .corrupt => (some [], true)
  | .stored j => (decodeLogs j, false)

/-- `saveTestResults` (lines 1756-1771): the write outcome is consumed by
the surrounding `try`/`catch`; the function returns (whether the failure
was logged) instead of propagating.  Total by construction — a save
failure never escapes to the caller. -/
def saveTestResults (writeOutcome : Except String Unit) : Bool :=
  match writeOutcome with
  | .ok _ => false
  | .error _ => true

/-! ### `getRelayerLogs` and array aliasing

JavaScript arrays are heap references; `[...this.relayerLogs]` allocates
a fresh array holding the same elements.  The heap is modelled as a list
of arrays indexed by allocation order. -/

/-- A heap of observation arrays. -/
structure LogHeap where
  arrays : List (List RelayerTestLog)

/-- Contents of the array behind reference `r`. -/
def readRef (h : LogHeap) (r : Nat) : List RelayerTestLog :=
  h.arrays.getD r []

/-- In-place mutation of the array behind reference `r` (covers
appending, removing and reordering: any replacement contents). -/
def writeRef (h : LogHeap) (r : Nat) (v : List RelayerTestLog) : LogHeap :=
  ⟨h.arrays.set r v⟩

/-- Allocate a fresh array. -/
def allocRef (h : LogHeap) (v : List RelayerTestLog) : LogHeap × Nat :=
  (⟨h.arrays ++ [v]⟩, h.arrays.length)

/-- `getRelayerLogs()` (lines 1893-1895): `return [...this.relayerLogs]` —
allocate a fresh array with the internal log's current contents and hand
back its reference. -/
def getRelayerLogs (h : LogHeap) (internal : Nat) : LogHeap × Nat :=
  allocRef h (readRef h internal)

/-! ## Theorems -/

/-- A concrete observation used to instantiate witness statements. -/
def sampleLog : RelayerTestLog :=
  { testTime := 86400042
    txHash := "AB12"
    packetSequence := 7
    success := true
    latency := 1500
    memoIdentifier := some "relayed-by:alice" }

/-- C3: every height referenced by the tx_search query built by
`searchreceiverChainRecvPacket` for destination height `maxHeight` lies
within the window `[maxHeight - 10, maxHeight + 10]`: the query's height
range is contained in that window. -/
theorem c3_height_window_bound (channelId : String) (sequence : Nat)
    (maxHeight h : Int)
    (hmin : (buildRecvPacketSearchQuery channelId sequence
      maxHeight).minHeight ≤ h)
    (hmax : h ≤ (buildRecvPacketSearchQuery channelId sequence
      maxHeight).maxHeight) :
    maxHeight - searchBuffer ≤ h ∧ h ≤ maxHeight + searchBuffer := by
  simp only [buildRecvPacketSearchQuery] at hmin hmax
  exact ⟨le_trans (le_max_right _ _) hmin, hmax⟩

/-- Witness for C3 at a concrete query: height 95 inside the range built
for destination height 100 lies within `[90, 110]`. -/
theorem c3_height_window_bound_witness :
    (100 : Int) - searchBuffer ≤ 95 ∧ (95 : Int) ≤ 100 + searchBuffer :=
  c3_height_window_bound "channel-0" 5 100 95 (by decide) (by decide)

/-- C9: loading the persisted log when the file is missing yields the
empty log with no warning, loading an unparseable (corrupt) file warns
and also yields the empty log, and a failing save is logged while
`saveTestResults` still returns normally (it is total and never
propagates the write error). -/
theorem c9_persistence_error_handling :
    loadExistingLogs .missing = (some [], false) ∧
    loadExistingLogs .corrupt = (some [], true) ∧
    (∀ msg : String, saveTestResults (.error msg) = true) ∧
    (∀ outcome : Except String Unit, saveTestResults (.ok ()) = false ∧
      (saveTestResults outcome = true ∨ saveTestResults outcome = false)) :=
  ⟨rfl, rfl, fun _ => rfl, fun outcome =>
    ⟨rfl, by cases outcome <;> simp [saveTestResults]⟩⟩

/-- C10: `getRelayerLogs` allocates a fresh array: the returned reference
differs from the internal one, carries the same contents, and mutating
it arbitrarily leaves the internal log — and any metrics computed from
it — unchanged. -/
theorem c10_getRelayerLogs_fresh (h : LogHeap) (internal : Nat)
    (v : List RelayerTestLog) (hlt : internal < h.arrays.length) :
    (getRelayerLogs h internal).2 ≠ internal ∧
    readRef (getRelayerLogs h internal).1 (getRelayerLogs h internal).2 =
      readRef h internal ∧
    readRef (writeRef (getRelayerLogs h internal).1
      (getRelayerLogs h internal).2 v) internal = readRef h internal ∧
    generatePerformanceMetrics (readRef (writeRef (getRelayerLogs h internal).1
      (getRelayerLogs h internal).2 v) internal) =
      generatePerformanceMetrics (readRef h internal) := by
  have hne : h.arrays.length ≠ internal := Nat.ne_of_gt hlt
  have hcontents :
      readRef (getRelayerLogs h internal).1 (getRelayerLogs h internal).2 =
        readRef h internal := by
    simp only [getRelayerLogs, allocRef, readRef,
      List.getD_eq_getElem?_getD, List.getElem?_concat_length]
    rfl
  have hframe :
      readRef (writeRef (getRelayerLogs h internal).1
        (getRelayerLogs h internal).2 v) internal = readRef h internal := by
    simp only [getRelayerLogs, allocRef, writeRef, readRef,
      List.getD_eq_getElem?_getD]
    rw [List.getElem?_set_ne hne, List.getElem?_append_left hlt]
  exact ⟨hne, hcontents, hframe, congrArg _ hframe⟩

/-- Witness for C10 at a concrete heap holding one internal array. -/
theorem c10_getRelayerLogs_fresh_witness :
    (getRelayerLogs ⟨[[sampleLog]]⟩ 0).2 ≠ 0 ∧
    readRef (getRelayerLogs ⟨[[sampleLog]]⟩ 0).1
      (getRelayerLogs ⟨[[sampleLog]]⟩ 0).2 = readRef ⟨[[sampleLog]]⟩ 0 ∧
    readRef (writeRef (getRelayerLogs ⟨[[sampleLog]]⟩ 0).1
      (getRelayerLogs ⟨[[sampleLog]]⟩ 0).2 []) 0 = readRef ⟨[[sampleLog]]⟩ 0 ∧
    generatePerformanceMetrics (readRef (writeRef
      (getRelayerLogs ⟨[[sampleLog]]⟩ 0).1
      (getRelayerLogs ⟨[[sampleLog]]⟩ 0).2 []) 0) =
      generatePerformanceMetrics (readRef ⟨[[sampleLog]]⟩ 0) :=
  c10_getRelayerLogs_fresh ⟨[[sampleLog]]⟩ 0 [] (by decide)

/-- The integer-scan fallback returns the sentinel 0 exactly when no
embedded integer lies in the plausible small-positive range. -/
theorem fallbackScan_eq_zero (rs : List (List Char)) :
    fallbackScan rs = 0 ↔
      ∀ r ∈ rs, ¬(0 < digitsVal r ∧ digitsVal r < 1000000) := by
  induction rs with
  | nil => simp [fallbackScan]
  | cons r rs ih =>
    simp only [fallbackScan]
    split
    · next hq =>
      constructor
      · intro h0; omega
      · intro hall; exact absurd hq (hall r (List.mem_cons_self r rs))
    · next hq =>
      rw [ih]
      constructor
      · intro hall r' hr'
        rcases List.mem_cons.mp hr' with rfl | hmem
        · exact hq
        · exact hall r' hmem
      · intro hall r' hr'
        exact hall r' (List.mem_cons_of_mem r hr')

/-- C2 (corrected claim refuted here): on the raw log
`"sequence":"0"` the fourth extraction pattern genuinely matches and its
captured value is 0, so `extractPacketSequence` returns 0 even though
not every pattern failed — the sentinel is not reserved for the
all-patterns-failed case. -/
theorem c2_sentinel_counterexample :
    extractPacketSequence "\"sequence\":\"0\"" = 0 ∧
    firstMatchOf patternMatchers ("\"sequence\":\"0\"".data) = some 0 :=
  ⟨rfl, rfl⟩

/-- C2 (amended): `extractPacketSequence` is total (it never throws), and
it returns the sentinel 0 exactly when either no pattern matches and the
integer-scan fallback finds no value in the plausible small-positive
range, or the first matching pattern's captured digit string itself
denotes the value 0. -/
theorem c2_sentinel_amended (rawLog : String) :
    extractPacketSequence rawLog = 0 ↔
      (firstMatchOf patternMatchers rawLog.data = some 0 ∨
       (firstMatchOf patternMatchers rawLog.data = none ∧
        ∀ r ∈ digitRuns rawLog.data,
          ¬(0 < digitsVal r ∧ digitsVal r < 1000000))) := by
  unfold extractPacketSequence
  cases hm : firstMatchOf patternMatchers rawLog.data with
  | some v => simp [hm]
  | none => simp [fallbackScan_eq_zero]

/-! ### Grouping lemmas -/

/-- Folding keys into the insertion-ordered key list preserves
membership. -/
theorem mem_foldl_addKey (ks : List String) (acc : List String)
    (g : String) : g ∈ ks.foldl addKey acc ↔ g ∈ acc ∨ g ∈ ks := by
  induction ks generalizing acc with
  | nil => simp
  | cons k ks ih =>
    simp only [List.foldl_cons, ih, addKey]
    split
    · next hk =>
      simp only [List.mem_cons]
      constructor
      · rintro (h | h)
        · exact Or.inl h
        · exact Or.inr (Or.inr h)
      · rintro (h | rfl | h)
        · exact Or.inl h
        · exact Or.inl hk
        · exact Or.inr h
    · next hk =>
      simp only [List.mem_append, List.mem_singleton, List.mem_cons]
      tauto

/-- A moniker appears among the group keys exactly when some log carries
it. -/
theorem mem_groupKeys (logs : List RelayerTestLog) (g : String) :
    g ∈ groupKeys logs ↔ ∃ l ∈ logs, logKey l = some g := by
  unfold groupKeys
  rw [mem_foldl_addKey]
  simp [List.mem_filterMap]

/-- Appending an unlabelled observation leaves the group keys
unchanged. -/
theorem groupKeys_append_none (logs : List RelayerTestLog)
    (obs : RelayerTestLog) (h : logKey obs = none) :
    groupKeys (logs ++ [obs]) = groupKeys logs := by
  unfold groupKeys
  rw [List.filterMap_append, List.foldl_append]
  simp [List.filterMap, h]

/-- Appending an observation with key `k` only `addKey`s `k`. -/
theorem groupKeys_append_some (logs : List RelayerTestLog)
    (obs : RelayerTestLog) (k : String) (h : logKey obs = some k) :
    groupKeys (logs ++ [obs]) = addKey (groupKeys logs) k := by
  unfold groupKeys
  rw [List.filterMap_append, List.foldl_append]
  simp [List.filterMap, h]

/-- Appending an observation whose key is not `g` leaves `g`'s group
array unchanged. -/
theorem groupLogs_append_ne (logs : List RelayerTestLog)
    (obs : RelayerTestLog) (g : String) (h : logKey obs ≠ some g) :
    groupLogs (logs ++ [obs]) g = groupLogs logs g := by
  unfold groupLogs
  rw [List.filter_append]
  simp [List.filter, h]

/-- Looking a moniker up in the computed metrics list: the first group
with that moniker, if the moniker is a key. -/
theorem find?_metricsFor (logs : List RelayerTestLog) (ks : List String)
    (g : String) :
    (ks.map (fun k => metricsFor k (groupLogs logs k))).find?
        (fun m => decide (m.validatorMoniker = g)) =
      if g ∈ ks then some (metricsFor g (groupLogs logs g)) else none := by
  induction ks with
  | nil => simp
  | cons k ks ih =>
    simp only [List.map_cons, List.find?_cons]
    by_cases hk : k = g
    · subst hk
      simp [metricsFor]
    · have hmk : (metricsFor k (groupLogs logs k)).validatorMoniker = k := rfl
      simp only [hmk, List.mem_cons, decide_eq_false hk]
      rw [ih]
      have hiff : (g = k ∨ g ∈ ks) ↔ g ∈ ks := by
        constructor
        · rintro (rfl | hg)
          · exact absurd rfl hk
          · exact hg
        · exact Or.inr
      rw [if_congr hiff rfl rfl]

/-- `findMetrics` over the computed metrics, characterised through the
group keys. -/
theorem findMetrics_compute (logs : List RelayerTestLog) (g : String) :
    findMetrics g (generatePerformanceMetrics logs) =
      if g ∈ groupKeys logs then
        some (metricsFor g (groupLogs logs g))
      else none := by
  unfold findMetrics generatePerformanceMetrics
  exact find?_metricsFor logs (groupKeys logs) g

/-- Appending an unlabelled observation leaves the whole metrics output
unchanged. -/
theorem compute_append_unlabeled (logs : List RelayerTestLog)
    (obs : RelayerTestLog) (h : logKey obs = none) :
    generatePerformanceMetrics (logs ++ [obs]) =
      generatePerformanceMetrics logs := by
  unfold generatePerformanceMetrics
  rw [groupKeys_append_none logs obs h]
  have hfun : (fun k => metricsFor k (groupLogs (logs ++ [obs]) k)) =
      fun k => metricsFor k (groupLogs logs k) := by
    funext k
    rw [groupLogs_append_ne logs obs k (by simp [h])]
  rw [hfun]

/-- C5: the metrics computation is pure and idempotent — recomputing on
the unchanged log gives the identical output — and extending the log by
one observation leaves the reported metrics of every group the new
observation does not belong to unchanged. -/
theorem c5_metrics_pure_and_frame (logs : List RelayerTestLog)
    (obs : RelayerTestLog) (g : String) (hne : logKey obs ≠ some g) :
    generatePerformanceMetrics logs = generatePerformanceMetrics logs ∧
    findMetrics g (generatePerformanceMetrics (logs ++ [obs])) =
      findMetrics g (generatePerformanceMetrics logs) := by
  refine ⟨rfl, ?_⟩
  rw [findMetrics_compute, findMetrics_compute,
    groupLogs_append_ne logs obs g hne]
  have hmem : g ∈ groupKeys (logs ++ [obs]) ↔ g ∈ groupKeys logs := by
    cases hk : logKey obs with
    | none => rw [groupKeys_append_none logs obs hk]
    | some k =>
      rw [groupKeys_append_some logs obs k hk]
      unfold addKey
      split
      · exact Iff.rfl
      · have hgk : g ≠ k := by
          intro h
          rw [h] at hne
          exact hne hk
        simp only [List.mem_append, List.mem_singleton]
        constructor
        · rintro (h | rfl)
          · exact h
          · exact absurd rfl hgk
        · exact Or.inl
  rw [if_congr hmem rfl rfl]

/-- A second concrete observation, labelled for another agent. -/
def obsBob : RelayerTestLog :=
  { testTime := 86400100
    txHash := "CD34"
    packetSequence := 8
    success := false
    latency := 30000
    memoIdentifier := some "relayed-by:bob" }

/-- Witness for C5: appending bob's observation leaves alice's reported
metrics unchanged. -/
theorem c5_metrics_pure_and_frame_witness :
    generatePerformanceMetrics [sampleLog] =
      generatePerformanceMetrics [sampleLog] ∧
    findMetrics "alice" (generatePerformanceMetrics ([sampleLog] ++ [obsBob])) =
      findMetrics "alice" (generatePerformanceMetrics [sampleLog]) :=
  c5_metrics_pure_and_frame [sampleLog] obsBob "alice" (by decide)

/-! ### Binary64 rounding lemmas -/

/-- `pow2` agrees with the integer power of 2 in ℚ (the executable form
bridged to `zpow` for reasoning). -/
theorem pow2_eq_zpow (e : Int) : pow2 e = (2 : ℚ) ^ e := by
  unfold pow2
  split
  · next h =>
    push_cast
    rw [← zpow_natCast, Int.toNat_of_nonneg h]
  · next h =>
    push_cast
    rw [← zpow_natCast, Int.toNat_of_nonneg (by omega : (0:ℤ) ≤ -e),
      one_div, ← zpow_neg, neg_neg]

/-- Powers of 2 are positive. -/
theorem pow2_pos (e : Int) : 0 < pow2 e := by
  rw [pow2_eq_zpow]
  exact zpow_pos (by norm_num) e

/-- `pow2` turns sums into products. -/
theorem pow2_add (x y : Int) : pow2 (x + y) = pow2 x * pow2 y := by
  rw [pow2_eq_zpow, pow2_eq_zpow, pow2_eq_zpow]
  exact zpow_add₀ (by norm_num) x y

/-- `pow2` is strictly monotone. -/
theorem pow2_lt_pow2_iff (x y : Int) : pow2 x < pow2 y ↔ x < y := by
  rw [pow2_eq_zpow, pow2_eq_zpow]
  exact zpow_lt_zpow_iff_right₀ (by norm_num)

/-- Nonnegative-exponent case of `pow2` as a natural power. -/
theorem pow2_of_nonneg (x : Int) (h : 0 ≤ x) :
    pow2 x = (2 : ℚ) ^ x.toNat := by
  rw [pow2_eq_zpow, ← zpow_natCast, Int.toNat_of_nonneg h]

/-- Rounding an integer to the nearest integer is the identity. -/
theorem roundEven_intCast (n : ℤ) : roundEven (n : ℚ) = n := by
  unfold roundEven
  rw [Int.floor_intCast, sub_self]
  norm_num

/-- The fuel-driven logarithm agrees with `Nat.log2` once the fuel
covers the value. -/
theorem log2Go_eq (fuel n : Nat) (h : n ≤ fuel) :
    log2Go fuel n = Nat.log2 n := by
  induction fuel generalizing n with
  | zero =>
    have hn : n = 0 := by omega
    subst hn
    rw [Nat.log2]
    rfl
  | succ fuel ih =>
    rw [Nat.log2]
    show (if 2 ≤ n then log2Go fuel (n / 2) + 1 else 0) = _
    split
    · next h2 => rw [ih (n / 2) (by omega)]
    · rfl

/-- `natLog2` is `Nat.log2`. -/
theorem natLog2_eq (n : Nat) : natLog2 n = Nat.log2 n :=
  log2Go_eq n n le_rfl

/-- The bit-length-candidate binary logarithm is a lower witness:
`2^(qIlog2 a) ≤ a` for positive `a`. -/
theorem qIlog2_le (a : ℚ) (ha : 0 < a) : pow2 (qIlog2 a) ≤ a := by
  have hnum : (0:ℤ) < a.num := Rat.num_pos.mpr ha
  have hp0 : a.num.toNat ≠ 0 := by omega
  have hP : 2 ^ Nat.log2 a.num.toNat ≤ a.num.toNat := Nat.log2_self_le hp0
  have hD : a.den < 2 ^ (Nat.log2 a.den + 1) := Nat.lt_log2_self
  have hden : (0:ℚ) < (a.den : ℚ) := by
    exact_mod_cast a.den_pos
  have key : pow2 ((Nat.log2 a.num.toNat : ℤ) - (Nat.log2 a.den : ℤ) - 1)
      ≤ a := by
    have ha' : a = (a.num.toNat : ℚ) / (a.den : ℚ) := by
      rw [show ((a.num.toNat : ℕ) : ℚ) = ((a.num : ℤ) : ℚ) by
        exact_mod_cast congrArg Int.cast (Int.toNat_of_nonneg hnum.le)]
      exact (Rat.num_div_den a).symm
    conv_rhs => rw [ha']
    rw [pow2_eq_zpow,
      show (Nat.log2 a.num.toNat : ℤ) - (Nat.log2 a.den : ℤ) - 1 =
        (Nat.log2 a.num.toNat : ℤ) - ((Nat.log2 a.den : ℤ) + 1) by ring,
      zpow_sub₀ (by norm_num : (2:ℚ) ≠ 0)]
    apply div_le_div₀
    · positivity
    · rw [show ((Nat.log2 a.num.toNat : ℤ)) = ((Nat.log2 a.num.toNat : ℕ) : ℤ)
        from rfl, zpow_natCast]
      exact_mod_cast hP
    · exact hden
    · rw [show ((Nat.log2 a.den : ℤ) + 1) = ((Nat.log2 a.den + 1 : ℕ) : ℤ) by
        push_cast; ring, zpow_natCast]
      exact_mod_cast hD.le
  unfold qIlog2
  simp only [natLog2_eq]
  split
  · next h => exact h
  · split
    · next h => exact key
    · next h1 h2 => exact le_of_not_lt h2

/-- On a nonnegative argument `roundDouble` is the nonnegative-case
rounding. -/
theorem roundDouble_pos_eq (q : ℚ) (hq : 0 ≤ q) :
    roundDouble q = roundDoublePos q := by
  unfold roundDouble
  rw [if_neg (not_lt.mpr hq)]

/-- `roundDouble` commutes with negation. -/
theorem roundDouble_neg (q : ℚ) : roundDouble (-q) = -roundDouble q := by
  unfold roundDouble
  rcases lt_trichotomy q 0 with h1 | h1 | h1
  · rw [if_neg (by linarith : ¬(-q < 0)), if_pos h1, neg_neg]
  · rw [h1]
    norm_num [roundDoublePos]
  · rw [if_pos (by linarith : -q < 0), if_neg (by linarith : ¬(q < 0)),
      neg_neg]

/-- A representable positive value rounds to itself: the scaled
significand is already an integer, so the significand rounding is
exact. -/
theorem roundDoublePos_repr (n e : ℤ) (hn : 0 < n) (hn53 : n < 2 ^ 53)
    (he : -1074 ≤ e) :
    roundDoublePos ((n : ℚ) * pow2 e) = (n : ℚ) * pow2 e := by
  have hpose := pow2_pos e
  have hqpos : 0 < (n : ℚ) * pow2 e :=
    mul_pos (by exact_mod_cast hn) hpose
  unfold roundDoublePos
  rw [if_neg (ne_of_gt hqpos)]
  show (roundEven ((n : ℚ) * pow2 e /
      pow2 (max (-1074) (qIlog2 ((n : ℚ) * pow2 e) - 52))) : ℚ) *
    pow2 (max (-1074) (qIlog2 ((n : ℚ) * pow2 e) - 52)) = (n : ℚ) * pow2 e
  set E := max (-1074) (qIlog2 ((n : ℚ) * pow2 e) - 52) with hEdef
  have hub : (n : ℚ) * pow2 e < pow2 (53 + e) := by
    rw [pow2_add, pow2_of_nonneg 53 (by norm_num)]
    have hcast : (n : ℚ) < (2 : ℚ) ^ (53:ℤ).toNat := by exact_mod_cast hn53
    exact mul_lt_mul_of_pos_right hcast hpose
  have hlt : qIlog2 ((n : ℚ) * pow2 e) < 53 + e :=
    (pow2_lt_pow2_iff _ _).mp (lt_of_le_of_lt (qIlog2_le _ hqpos) hub)
  have hEe : E ≤ e := by
    rw [hEdef]
    exact max_le he (by omega)
  have hEe' : (0:ℤ) ≤ e - E := by omega
  have hdiv : pow2 e / pow2 E = pow2 (e - E) := by
    rw [pow2_eq_zpow, pow2_eq_zpow, pow2_eq_zpow,
      ← zpow_sub₀ (by norm_num : (2:ℚ) ≠ 0)]
  have hscale : (n : ℚ) * pow2 e / pow2 E =
      ((n * 2 ^ (e - E).toNat : ℤ) : ℚ) := by
    rw [mul_div_assoc, hdiv, pow2_of_nonneg _ hEe']
    push_cast
    ring
  rw [hscale, roundEven_intCast]
  push_cast
  rw [mul_assoc, ← pow2_of_nonneg _ hEe', ← pow2_add]
  have harg : e - E + E = e := by omega
  rw [harg]

/-- A finite binary64 value rounds to itself. -/
theorem roundDouble_eq_self (q : ℚ) (h : FloatRepr q) : roundDouble q = q := by
  obtain ⟨m, e, hml, hmr, he, -, rfl⟩ := h
  rcases lt_trichotomy m 0 with hneg | h0 | hpos
  · have hsplit : (m : ℚ) * pow2 e = -(((-m : ℤ) : ℚ) * pow2 e) := by
      push_cast
      ring
    have hx : (0:ℚ) ≤ ((-m : ℤ) : ℚ) * pow2 e :=
      le_of_lt (mul_pos (by exact_mod_cast (by omega : (0:ℤ) < -m))
        (pow2_pos e))
    rw [hsplit, roundDouble_neg, roundDouble_pos_eq _ hx,
      roundDoublePos_repr (-m) e (by omega) (by omega) he]
  · rw [h0]
    push_cast
    rw [zero_mul]
    unfold roundDouble roundDoublePos
    norm_num
  · have hx : (0:ℚ) ≤ (m : ℚ) * pow2 e :=
      le_of_lt (mul_pos (by exact_mod_cast hpos) (pow2_pos e))
    rw [roundDouble_pos_eq _ hx]
    exact roundDoublePos_repr m e hpos hmr he

/-- Every output of the nonnegative-case rounding is a dyadic rational:
an integer times a power of two. -/
theorem roundDoublePos_dyadic (q : ℚ) :
    ∃ m k : ℤ, roundDoublePos q = (m : ℚ) * pow2 k := by
  unfold roundDoublePos
  split
  · exact ⟨0, 0, by norm_num⟩
  · exact ⟨roundEven (q / pow2 (max (-1074) (qIlog2 q - 52))),
      max (-1074) (qIlog2 q - 52), rfl⟩

/-- Every output of `roundDouble` is a dyadic rational. -/
theorem roundDouble_dyadic (q : ℚ) :
    ∃ m k : ℤ, roundDouble q = (m : ℚ) * pow2 k := by
  unfold roundDouble
  split
  · obtain ⟨m, k, hmk⟩ := roundDoublePos_dyadic (-q)
    exact ⟨-m, k, by rw [hmk]; push_cast; ring⟩
  · exact roundDoublePos_dyadic q

/-- No dyadic rational — hence no binary64 value — equals `100/3`:
cross-multiplying would make `3` divide a product of `100` and a power
of `2`. -/
theorem dyadic_ne_hundred_thirds (m k : ℤ) :
    (m : ℚ) * pow2 k ≠ 100 / 3 := by
  intro h
  rcases le_or_lt 0 k with hk | hk
  · rw [pow2_of_nonneg k hk] at h
    have h3 : ((m : ℚ)) * 2 ^ k.toNat * 3 = 100 := by
      rw [h]
      norm_num
    have h4 : (m * 2 ^ k.toNat * 3 : ℤ) = 100 := by exact_mod_cast h3
    have hdvd : (3 : ℤ) ∣ 100 := ⟨m * 2 ^ k.toNat, by linarith⟩
    norm_num at hdvd
  · have hj : pow2 k = 1 / ((2 ^ (-k).toNat : ℕ) : ℚ) := by
      unfold pow2
      rw [if_neg (by omega)]
    rw [hj, mul_one_div,
      div_eq_div_iff (by positivity) (by norm_num : (3:ℚ) ≠ 0)] at h
    have h4 : m * 3 = 100 * 2 ^ (-k).toNat := by exact_mod_cast h
    have hdvd : (3 : ℤ) ∣ 100 * 2 ^ (-k).toNat := ⟨m, by linarith⟩
    rcases (Int.prime_three.dvd_mul).mp hdvd with h5 | h5
    · norm_num at h5
    · have h6 : (3 : ℤ) ∣ 2 := Int.prime_three.dvd_of_dvd_pow h5
      norm_num at h6

/-- `⌊log₂ (4/5)⌋ = −1`, by evaluating the bit-length candidate and the
correcting comparisons. -/
theorem qIlog2_four_fifths : qIlog2 (4/5 : ℚ) = -1 := by
  unfold qIlog2
  rw [show (4/5:ℚ).num.toNat = 4 from by
        rw [show (4/5:ℚ).num = 4 from by norm_num]
        decide,
     show (4/5:ℚ).den = 5 from by norm_num]
  norm_num [natLog2, log2Go, pow2]

/-- The binary64 neighbour of `4/5` (= 8/10): the fraction is not
representable and rounds up to `7205759403792794 · 2^−53`. -/
theorem roundDouble_four_fifths :
    roundDouble (4/5 : ℚ) = 7205759403792794 / 9007199254740992 := by
  unfold roundDouble roundDoublePos
  rw [if_neg (by norm_num : ¬(4/5 : ℚ) < 0),
    if_neg (by norm_num : ¬(4/5 : ℚ) = 0)]
  show (roundEven ((4/5:ℚ) / pow2 (max (-1074) (qIlog2 (4/5:ℚ) - 52))) : ℚ) *
    pow2 (max (-1074) (qIlog2 (4/5:ℚ) - 52)) = _
  rw [qIlog2_four_fifths,
    show max (-1074 : ℤ) (-1 - 52) = -53 from by norm_num [max_def]]
  rw [show ((4/5:ℚ) / pow2 (-53)) = 36028797018963968 / 5 from by
    unfold pow2
    rw [if_neg (by norm_num)]
    norm_num [show ((53:ℤ)).toNat = 53 from by decide]]
  rw [show roundEven (36028797018963968 / 5 : ℚ) = 7205759403792794 from by
    unfold roundEven
    rw [show ⌊(36028797018963968 / 5 : ℚ)⌋ = 7205759403792793 from by
      norm_num]
    norm_num]
  unfold pow2
  rw [if_neg (by norm_num)]
  norm_num [show ((53:ℤ)).toNat = 53 from by decide]

/-- `⌊log₂ x⌋ = 6` for the product `fl(4/5) · 100` (a value slightly
above 80). -/
theorem qIlog2_eighty_up :
    qIlog2 (90071992547409925 / 1125899906842624 : ℚ) = 6 := by
  unfold qIlog2
  rw [show (90071992547409925 / 1125899906842624 : ℚ).num.toNat =
        90071992547409925 from by
        rw [show (90071992547409925 / 1125899906842624 : ℚ).num =
              90071992547409925 from by norm_num]
        decide,
     show (90071992547409925 / 1125899906842624 : ℚ).den =
        1125899906842624 from by norm_num,
     show natLog2 90071992547409925 = 56 from by decide,
     show natLog2 1125899906842624 = 50 from by decide]
  norm_num [pow2]
  rw [show (7:ℤ).toNat = 7 from by decide, show (6:ℤ).toNat = 6 from by decide]
  norm_num

/-- The product `fl(4/5) · 100 = 80 + 2/2^50` rounds back down to
exactly 80: the rounding errors cancel. -/
theorem roundDouble_eighty_up :
    roundDouble (90071992547409925 / 1125899906842624 : ℚ) = 80 := by
  unfold roundDouble roundDoublePos
  rw [if_neg (by norm_num : ¬(90071992547409925 / 1125899906842624 : ℚ) < 0),
    if_neg (by norm_num : ¬(90071992547409925 / 1125899906842624 : ℚ) = 0)]
  show (roundEven ((90071992547409925 / 1125899906842624 : ℚ) /
      pow2 (max (-1074)
        (qIlog2 (90071992547409925 / 1125899906842624 : ℚ) - 52))) : ℚ) *
    pow2 (max (-1074)
      (qIlog2 (90071992547409925 / 1125899906842624 : ℚ) - 52)) = _
  rw [qIlog2_eighty_up,
    show max (-1074 : ℤ) (6 - 52) = -46 from by norm_num [max_def]]
  rw [show ((90071992547409925 / 1125899906842624 : ℚ) / pow2 (-46)) =
      90071992547409925 / 16 from by
    unfold pow2
    rw [if_neg (by norm_num)]
    norm_num [show ((46:ℤ)).toNat = 46 from by decide]]
  rw [show roundEven (90071992547409925 / 16 : ℚ) = 5629499534213120 from by
    unfold roundEven
    rw [show ⌊(90071992547409925 / 16 : ℚ)⌋ = 5629499534213120 from by
      norm_num]
    norm_num]
  unfold pow2
  rw [if_neg (by norm_num)]
  norm_num [show ((46:ℤ)).toNat = 46 from by decide]

/-- A labelled observation for building concrete metrics groups. -/
def mkLog (i : Nat) (ok : Bool) : RelayerTestLog :=
  { testTime := (i : Int)
    txHash := "t"
    packetSequence := i
    success := ok
    latency := 100
    memoIdentifier := some "alice" }

/-- Three observations, one successful: a group with n = 3, k = 1. -/
def threeLogs : List RelayerTestLog :=
  [mkLog 0 true, mkLog 1 false, mkLog 2 false]

/-- Four observations, one successful: a group with n = 4, k = 1. -/
def fourLogs : List RelayerTestLog :=
  [mkLog 0 true, mkLog 1 false, mkLog 2 false, mkLog 3 false]

/-- Ten observations, eight successful: the specification's example
group with n = 10, k = 8. -/
def tenLogs : List RelayerTestLog :=
  [mkLog 0 true, mkLog 1 true, mkLog 2 true, mkLog 3 true, mkLog 4 true,
   mkLog 5 true, mkLog 6 true, mkLog 7 true, mkLog 8 false, mkLog 9 false]

/-- C6 (corrected claim refuted here): for the concrete group with 3
observations of which 1 succeeded, the double-rounded
`(successCount / totalCount) * 100` the program computes differs from
the exact rational `100 * 1 / 3` — no binary64 value equals `100/3`. -/
theorem c6_success_rate_counterexample :
    (metricsFor "alice" (groupLogs threeLogs "alice")).totalTests = 3 ∧
    (metricsFor "alice" (groupLogs threeLogs "alice")).successfulRelays = 1 ∧
    metricsFor "alice" (groupLogs threeLogs "alice") ∈
      generatePerformanceMetrics threeLogs ∧
    (metricsFor "alice" (groupLogs threeLogs "alice")).successRate ≠
      100 * ((metricsFor "alice"
          (groupLogs threeLogs "alice")).successfulRelays : ℚ) /
        ((metricsFor "alice" (groupLogs threeLogs "alice")).totalTests : ℚ) := by
  refine ⟨rfl, rfl, List.mem_singleton.mpr rfl, ?_⟩
  intro h
  have hRHS : 100 * ((metricsFor "alice"
        (groupLogs threeLogs "alice")).successfulRelays : ℚ) /
      ((metricsFor "alice" (groupLogs threeLogs "alice")).totalTests : ℚ) =
      100 / 3 := by
    rw [show (metricsFor "alice"
          (groupLogs threeLogs "alice")).successfulRelays = 1 from rfl,
       show (metricsFor "alice"
          (groupLogs threeLogs "alice")).totalTests = 3 from rfl]
    norm_num
  rw [hRHS] at h
  have hform : ∃ x : ℚ, (metricsFor "alice"
      (groupLogs threeLogs "alice")).successRate = roundDouble x := ⟨_, rfl⟩
  obtain ⟨x, hx⟩ := hform
  obtain ⟨m, k, hmk⟩ := roundDouble_dyadic x
  rw [hx, hmk] at h
  exact dyadic_ne_hundred_thirds m k h

/-- C6 (amended): every group in the computed metrics is nonempty and
its `successRate` is the IEEE-754 binary64 evaluation of
`(successCount / totalCount) * 100` — the correctly rounded quotient,
times 100, correctly rounded again.  It equals the exact
`100 * successCount / totalCount` whenever the quotient and its
hundredfold are both representable binary64 values (the spec's example
n = 10, k = 8 also yields exactly 80, by cancellation, although 8/10 is
not representable — see the witness). -/
theorem c6_success_rate_amended (logs : List RelayerTestLog)
    (m : RelayerPerformanceMetrics)
    (hm : m ∈ generatePerformanceMetrics logs) :
    0 < m.totalTests ∧
    m.successRate =
      roundDouble (roundDouble ((m.successfulRelays : ℚ) /
        (m.totalTests : ℚ)) * 100) ∧
    (FloatRepr ((m.successfulRelays : ℚ) / (m.totalTests : ℚ)) →
      FloatRepr (100 * ((m.successfulRelays : ℚ) / (m.totalTests : ℚ))) →
      m.successRate =
        100 * (m.successfulRelays : ℚ) / (m.totalTests : ℚ)) := by
  unfold generatePerformanceMetrics at hm
  rcases List.mem_map.mp hm with ⟨k, hk, rfl⟩
  rcases (mem_groupKeys logs k).mp hk with ⟨l, hl, hkey⟩
  have hmem : l ∈ groupLogs logs k :=
    List.mem_filter.mpr ⟨hl, by simp [hkey]⟩
  have hpos : 0 < (groupLogs logs k).length :=
    List.length_pos.mpr (List.ne_nil_of_mem hmem)
  refine ⟨hpos, rfl, ?_⟩
  intro h1 h2
  set m := metricsFor k (groupLogs logs k) with hmdef
  calc m.successRate
      = roundDouble (roundDouble ((m.successfulRelays : ℚ) /
          (m.totalTests : ℚ)) * 100) := rfl
    _ = roundDouble (((m.successfulRelays : ℚ) /
          (m.totalTests : ℚ)) * 100) := by rw [roundDouble_eq_self _ h1]
    _ = roundDouble (100 * ((m.successfulRelays : ℚ) /
          (m.totalTests : ℚ))) := by ring_nf
    _ = 100 * ((m.successfulRelays : ℚ) / (m.totalTests : ℚ)) :=
        roundDouble_eq_self _ h2
    _ = 100 * (m.successfulRelays : ℚ) / (m.totalTests : ℚ) := by ring

/-- Witness for C6: the n = 4, k = 1 group (both 1/4 and 25 are
representable doubles) reports exactly `100 * 1 / 4 = 25`, and the
specification's own example group with n = 10, k = 8 reports exactly
80 despite the intermediate rounding of 8/10. -/
theorem c6_success_rate_amended_witness :
    0 < (metricsFor "alice" (groupLogs fourLogs "alice")).totalTests ∧
    (metricsFor "alice" (groupLogs fourLogs "alice")).successRate =
      100 * ((metricsFor "alice"
          (groupLogs fourLogs "alice")).successfulRelays : ℚ) /
        ((metricsFor "alice" (groupLogs fourLogs "alice")).totalTests : ℚ) ∧
    (metricsFor "alice" (groupLogs tenLogs "alice")).successRate = 80 := by
  have hrep1 : FloatRepr (((metricsFor "alice"
      (groupLogs fourLogs "alice")).successfulRelays : ℚ) /
      ((metricsFor "alice" (groupLogs fourLogs "alice")).totalTests : ℚ)) := by
    refine ⟨1, -2, by norm_num, by norm_num, by norm_num, by norm_num, ?_⟩
    rw [show (metricsFor "alice"
          (groupLogs fourLogs "alice")).successfulRelays = 1 from rfl,
       show (metricsFor "alice"
          (groupLogs fourLogs "alice")).totalTests = 4 from rfl,
       pow2_eq_zpow]
    norm_num
  have hrep2 : FloatRepr (100 * (((metricsFor "alice"
      (groupLogs fourLogs "alice")).successfulRelays : ℚ) /
      ((metricsFor "alice" (groupLogs fourLogs "alice")).totalTests : ℚ))) := by
    refine ⟨25, 0, by norm_num, by norm_num, by norm_num, by norm_num, ?_⟩
    rw [show (metricsFor "alice"
          (groupLogs fourLogs "alice")).successfulRelays = 1 from rfl,
       show (metricsFor "alice"
          (groupLogs fourLogs "alice")).totalTests = 4 from rfl,
       pow2_eq_zpow]
    norm_num
  have h80 : (metricsFor "alice" (groupLogs tenLogs "alice")).successRate =
      80 := by
    have l8 : ((groupLogs tenLogs "alice").filter (·.success)).length = 8 := by
      decide
    have l10 : (groupLogs tenLogs "alice").length = 10 := by decide
    have e1 : (metricsFor "alice" (groupLogs tenLogs "alice")).successRate =
        roundDouble (roundDouble
          ((((groupLogs tenLogs "alice").filter (·.success)).length : ℚ) /
            (((groupLogs tenLogs "alice")).length : ℚ)) * 100) := rfl
    rw [e1, l8, l10,
       show ((8:ℕ):ℚ) / ((10:ℕ):ℚ) = 4/5 from by norm_num,
       roundDouble_four_fifths,
       show (7205759403792794 / 9007199254740992 * 100 : ℚ) =
         90071992547409925 / 1125899906842624 from by norm_num,
       roundDouble_eighty_up]
  exact ⟨(c6_success_rate_amended fourLogs
      (metricsFor "alice" (groupLogs fourLogs "alice"))
      (List.mem_singleton.mpr rfl)).1,
    (c6_success_rate_amended fourLogs
      (metricsFor "alice" (groupLogs fourLogs "alice"))
      (List.mem_singleton.mpr rfl)).2.2 hrep1 hrep2,
    h80⟩

/-- Trimming a memo that begins with the probe marker keeps the probe
marker at its head (the marker's first character is not whitespace, and
trailing trimming cannot reach into it). -/
theorem jsTrim_probe_concat (rest : String) :
    jsTrim ("IBC-relay-test-" ++ rest) =
      ⟨"IBC-relay-test-".data ++
        (rest.data.reverse.dropWhile isJsWhitespace).reverse⟩ := by
  unfold jsTrim
  congr 1
  show ((("IBC-relay-test-".data ++ rest.data).dropWhile
      isJsWhitespace).reverse.dropWhile isJsWhitespace).reverse = _
  have h1 : ("IBC-relay-test-".data ++ rest.data).dropWhile isJsWhitespace =
      "IBC-relay-test-".data ++ rest.data := by
    rw [List.dropWhile_append]
    have hb : (("IBC-relay-test-".data).dropWhile isJsWhitespace).isEmpty =
        false := rfl
    rw [hb]
    simp only [Bool.false_eq_true, if_false]
    rfl
  rw [h1, List.reverse_append, List.dropWhile_append]
  cases hE : (rest.data.reverse.dropWhile isJsWhitespace).isEmpty with
  | true =>
    have hnil : rest.data.reverse.dropWhile isJsWhitespace = [] :=
      List.isEmpty_iff.mp hE
    simp only [hE, if_true, hnil, List.reverse_nil, List.append_nil]
    rfl
  | false =>
    simp only [hE, Bool.false_eq_true, if_false]
    rw [List.reverse_append, List.reverse_reverse]

/-- A memo beginning with the system's probe marker resolves to no
label. -/
theorem resolveRelayerMemo_probe (rest : String) :
    resolveRelayerMemo (some ("IBC-relay-test-" ++ rest)) = none := by
  have hm : ("IBC-relay-test-" ++ rest) ≠ "" := by
    intro h
    have hdata := congrArg String.data h
    simp at hdata
  have hsw : jsStartsWith (jsTrim ("IBC-relay-test-" ++ rest))
      "IBC-relay-test-" = true := by
    rw [jsTrim_probe_concat]
    unfold jsStartsWith stripLit
    have hlen : ("IBC-relay-test-".data ++
        (rest.data.reverse.dropWhile isJsWhitespace).reverse).take
          ("IBC-relay-test-".data.length) = "IBC-relay-test-".data :=
      List.take_left _ _
    simp [hlen]
  show (if ("IBC-relay-test-" ++ rest) = "" then none
    else
      let t := jsTrim ("IBC-relay-test-" ++ rest)
      if t ≠ "" ∧ ¬jsStartsWith t "IBC-relay-test-" then some t
      else none) = none
  rw [if_neg hm]
  show (if jsTrim ("IBC-relay-test-" ++ rest) ≠ "" ∧
      ¬jsStartsWith (jsTrim ("IBC-relay-test-" ++ rest)) "IBC-relay-test-"
    then some (jsTrim ("IBC-relay-test-" ++ rest)) else none) = none
  rw [if_neg]
  rintro ⟨-, hns⟩
  exact hns hsw

/-- C8: a decoded delivery memo that matches the system's own
probe-marker pattern (the probe prefix followed by anything, in
particular a timestamp) resolves to an absent label; and an observation
with no resolved label is excluded from every metrics group — appending
it changes no group's metrics — while remaining in the raw observation
log. -/
theorem c8_probe_marker_and_grouping :
    (∀ rest : String,
      resolveRelayerMemo (some ("IBC-relay-test-" ++ rest)) = none) ∧
    (∀ ts : Int, resolveRelayerMemo (some (probeMemo ts)) = none) ∧
    (∀ (logs : List RelayerTestLog) (obs : RelayerTestLog),
      obs.memoIdentifier = none →
      generatePerformanceMetrics (logs ++ [obs]) =
        generatePerformanceMetrics logs ∧
      (∀ g, obs ∉ groupLogs (logs ++ [obs]) g) ∧
      obs ∈ logs ++ [obs]) := by
  refine ⟨resolveRelayerMemo_probe, ?_, ?_⟩
  · intro ts
    exact resolveRelayerMemo_probe (toString ts)
  · intro logs obs hmemo
    have hkey : logKey obs = none := by
      unfold logKey
      rw [hmemo]
    refine ⟨compute_append_unlabeled logs obs hkey, ?_, ?_⟩
    · intro g hmem
      have := (List.mem_filter.mp hmem).2
      simp [hkey] at this
    · exact List.mem_append_right logs (List.mem_singleton.mpr rfl)

/-- An unlabelled concrete observation. -/
def obsNoMemo : RelayerTestLog :=
  { testTime := 86400200
    txHash := "0099"
    packetSequence := 0
    success := false
    latency := 0
    errorMessage := some "Timeout waiting for acknowledgement" }

/-- Witness for C8: a concrete probe-marker memo resolves to no label,
and appending a concrete unlabelled observation leaves the metrics
unchanged while the observation stays in the raw log. -/
theorem c8_probe_marker_and_grouping_witness :
    resolveRelayerMemo (some ("IBC-relay-test-" ++ "1712000000000")) = none ∧
    generatePerformanceMetrics ([sampleLog] ++ [obsNoMemo]) =
      generatePerformanceMetrics [sampleLog] ∧
    obsNoMemo ∈ [sampleLog] ++ [obsNoMemo] :=
  ⟨c8_probe_marker_and_grouping.1 "1712000000000",
   (c8_probe_marker_and_grouping.2.2 [sampleLog] obsNoMemo rfl).1,
   (c8_probe_marker_and_grouping.2.2 [sampleLog] obsNoMemo rfl).2.2⟩

/-! ### Acknowledgement-tracking lemmas -/

/-- Whenever the packet query chain reports `acknowledged:true`, the
record carries an `ackTime` sampled no earlier than `t0` (all clocks in
the tick's environment are at least `t0`). -/
theorem queryPacketAcknowledgement_ackTime (sequence : Nat)
    (env : AckQueryEnv) (t0 : Int) (henv : env.timesGE t0)
    (hack : (queryPacketAcknowledgement sequence env).acknowledged = true) :
    ∃ ta, (queryPacketAcknowledgement sequence env).ackTime = some ta ∧
      t0 ≤ ta := by
  cases env with
  | helperThrew msg => simp [queryPacketAcknowledgement] at hack
  | helper e =>
    simp only [queryPacketAcknowledgement, helperQueryPacketAcknowledgement]
      at hack ⊢
    by_cases hc : e.ackQueryCode ≠ 0
    · simp [hc] at hack
    · cases hd : e.ackData with
      | none => simp [hc, hd] at hack
      | some d =>
        simp only [hc, hd, if_false, ite_false]
        exact ⟨e.now, by simp [hc, hd], henv⟩
  | direct o =>
    cases o with
    | error msg =>
      simp [queryPacketAcknowledgement, queryAcknowledgementDirect] at hack
    | ok info =>
      cases info with
      | none =>
        simp [queryPacketAcknowledgement, queryAcknowledgementDirect] at hack
      | some i =>
        exact ⟨i.timestamp,
          by simp [queryPacketAcknowledgement, queryAcknowledgementDirect],
          henv⟩

/-- Whenever `waitForAcknowledgement` reports `acknowledged:true`, its
`ackTime` is present and was sampled no earlier than `t0`, provided
every tick ran at or after `t0`. -/
theorem waitForAcknowledgement_ackTime (sequence : Nat)
    (ticks : List Tick) (t0 : Int)
    (hticks : ∀ t ∈ ticks, t.timesGE t0)
    (hack : (waitForAcknowledgement sequence ticks).acknowledged = true) :
    ∃ ta, (waitForAcknowledgement sequence ticks).ackTime = some ta ∧
      t0 ≤ ta := by
  induction ticks with
  | nil => simp [waitForAcknowledgement] at hack
  | cons t rest ih =>
    have ht := hticks t (List.mem_cons_self t rest)
    have hrest := fun x hx => hticks x (List.mem_cons_of_mem t hx)
    obtain ⟨tnow, trecv, tenv⟩ := t
    cases trecv with
    | error msg => exact ih hrest hack
    | ok o =>
      cases o with
      | some info => exact ⟨tnow, rfl, ht.1⟩
      | none =>
        by_cases hq :
            (queryPacketAcknowledgement sequence tenv).acknowledged = true
        · have hgoal : waitForAcknowledgement sequence
              (⟨tnow, .ok none, tenv⟩ :: rest) =
                queryPacketAcknowledgement sequence tenv := by
            conv_lhs => unfold waitForAcknowledgement
            dsimp only
            rw [if_pos hq]
          rw [hgoal]
          exact queryPacketAcknowledgement_ackTime sequence tenv t0 ht.2 hq
        · have hgoal : waitForAcknowledgement sequence
              (⟨tnow, .ok none, tenv⟩ :: rest) =
                waitForAcknowledgement sequence rest := by
            conv_lhs => unfold waitForAcknowledgement
            dsimp only
            rw [if_neg hq]
          rw [hgoal] at hack ⊢
          exact ih hrest hack

/-- C1: if `waitForAcknowledgement` acknowledged the packet (the only
case in which `runBasicRelayTest` appends its success observation, and
exactly when `runBatchTest`'s merged observation has `success = true`),
the acknowledgement record carries an `ackTime`, and the merged
observation's latency is nonnegative — the ticks run at or after the
transfer's timestamp, since their clocks are sampled later. -/
theorem c1_success_implies_acktime_and_latency (sequence : Nat)
    (ticks : List Tick) (tr : IBCTransferResult) (testAmount : String)
    (now timeoutMs : Int)
    (hclock : ∀ t ∈ ticks, t.timesGE tr.timestamp) :
    ((waitForAcknowledgement sequence ticks).acknowledged = true →
      ((waitForAcknowledgement sequence ticks).ackTime.isSome = true ∧
       (mergeBasicSuccess testAmount tr
         (waitForAcknowledgement sequence ticks) now).success = true ∧
       0 ≤ (mergeBasicSuccess testAmount tr
         (waitForAcknowledgement sequence ticks) now).latency)) ∧
    ((mergeBatchLog timeoutMs tr
        (waitForAcknowledgement sequence ticks) now).success = true →
      ((waitForAcknowledgement sequence ticks).ackTime.isSome = true ∧
       0 ≤ (mergeBatchLog timeoutMs tr
         (waitForAcknowledgement sequence ticks) now).latency)) := by
  have main : (waitForAcknowledgement sequence ticks).acknowledged = true →
      ∃ ta, (waitForAcknowledgement sequence ticks).ackTime = some ta ∧
        tr.timestamp ≤ ta :=
    waitForAcknowledgement_ackTime sequence ticks tr.timestamp hclock
  constructor
  · intro hack
    rcases main hack with ⟨ta, hta, hge⟩
    refine ⟨by rw [hta]; rfl, rfl, ?_⟩
    simp only [mergeBasicSuccess, hta]
    omega
  · intro hsucc
    have hack : (waitForAcknowledgement sequence ticks).acknowledged = true :=
      hsucc
    rcases main hack with ⟨ta, hta, hge⟩
    refine ⟨by rw [hta]; rfl, ?_⟩
    simp only [mergeBatchLog, hta]
    omega

/-- A concrete successful transfer. -/
def sampleTransfer : IBCTransferResult :=
  { txHash := "AA11"
    success := true
    sequence := some 3
    timestamp := 100 }

/-- A concrete tick on which the destination search finds the packet. -/
def sampleTicks : List Tick :=
  [⟨150, .ok (some ⟨"BB22", "cosmos1relayer", some "relayed-by:alice"⟩),
    .helperThrew "unused"⟩]

/-- Witness for C1 at the concrete acknowledged run. -/
theorem c1_success_implies_acktime_and_latency_witness :
    (waitForAcknowledgement 3 sampleTicks).ackTime.isSome = true ∧
    (mergeBasicSuccess "100" sampleTransfer
      (waitForAcknowledgement 3 sampleTicks) 200).success = true ∧
    0 ≤ (mergeBasicSuccess "100" sampleTransfer
      (waitForAcknowledgement 3 sampleTicks) 200).latency :=
  (c1_success_implies_acktime_and_latency 3 sampleTicks sampleTransfer
    "100" 200 0 (by decide)).1 (by decide)

/-- Strategy 1 produced no positive match on this tick (it threw — and
was caught — or found nothing). -/
def recvMissed : Except String (Option RecvInfo) → Bool
  | .ok (some _) => false
  | _ => true

/-- Every detection strategy failed on this tick. -/
def tickFails (sequence : Nat) (t : Tick) : Prop :=
  recvMissed t.recv = true ∧
  (queryPacketAcknowledgement sequence t.ackEnv).acknowledged = false

instance (sequence : Nat) (t : Tick) : Decidable (tickFails sequence t) :=
  inferInstanceAs (Decidable (_ ∧ _))

/-- C4: a tick whose destination search throws behaves exactly like a
tick with no match — the failure is caught and never aborts the loop —
and when every strategy fails on every tick until the timeout budget is
exhausted, `waitForAcknowledgement` returns (exactly once, being a
function) the `acknowledged:false` record. -/
theorem c4_all_strategies_fail_times_out (sequence : Nat)
    (ticks : List Tick) (h : ∀ t ∈ ticks, tickFails sequence t) :
    waitForAcknowledgement sequence ticks =
      { sequence := sequence, acknowledged := false } ∧
    ∀ (now : Int) (msg : String) (env : AckQueryEnv) (rest : List Tick),
      waitForAcknowledgement sequence
          ({ now := now, recv := .error msg, ackEnv := env } :: rest) =
        waitForAcknowledgement sequence rest := by
  constructor
  · induction ticks with
    | nil => rfl
    | cons t rest ih =>
      have ht := h t (List.mem_cons_self t rest)
      have hrest := ih (fun x hx => h x (List.mem_cons_of_mem t hx))
      obtain ⟨tnow, trecv, tenv⟩ := t
      cases trecv with
      | error msg => exact hrest
      | ok o =>
        cases o with
        | some info => simp [recvMissed, tickFails] at ht
        | none =>
          have hq : ¬(queryPacketAcknowledgement sequence
              tenv).acknowledged = true := by
            have h2 : (queryPacketAcknowledgement sequence
                tenv).acknowledged = false := ht.2
            simp [h2]
          have hgoal : waitForAcknowledgement sequence
              (⟨tnow, .ok none, tenv⟩ :: rest) =
                waitForAcknowledgement sequence rest := by
            conv_lhs => unfold waitForAcknowledgement
            dsimp only
            rw [if_neg hq]
          rw [hgoal]
          exact hrest
  · intro now msg env rest
    rfl

/-- Concrete ticks on which both strategies fail (one thrown search, one
empty search with an unacknowledged direct query). -/
def failingTicks : List Tick :=
  [{ now := 1, recv := .error "search failed", ackEnv := .helperThrew "x" },
   { now := 2, recv := .ok none, ackEnv := .direct (.ok none) }]

/-- Witness for C4 at the concrete failing run. -/
theorem c4_all_strategies_fail_times_out_witness :
    waitForAcknowledgement 3 failingTicks =
      { sequence := 3, acknowledged := false } :=
  (c4_all_strategies_fail_times_out 3 failingTicks (by decide)).1

/-! ### Persistence round trip -/

/-- Field lookup distributes over concatenated field lists. -/
theorem getField_append (fs gs : List (String × Json)) (key : String) :
    getField (fs ++ gs) key =
      match getField fs key with
      | some v => some v
      | none => getField gs key := by
  induction fs with
  | nil => simp [getField]
  | cons kv fs ih =>
    obtain ⟨k, v⟩ := kv
    by_cases hk : k = key
    · simp [getField, hk]
    · simp [getField, hk, ih]

/-- Looking an optional field up under its own name. -/
theorem getField_optField_self (name : String) (o : Option String) :
    getField (optField name o) name = o.map Json.str := by
  cases o <;> simp [optField, getField]

/-- Looking an optional field up under a different name. -/
theorem getField_optField_ne (name key : String) (o : Option String)
    (h : name ≠ key) : getField (optField name o) key = none := by
  cases o <;> simp [optField, getField, h]

set_option maxHeartbeats 1000000 in
/-- One observation decodes back from its serialised object, provided the
ISO date round trip holds at its timestamp. -/
theorem decodeLog_encodeLog (l : RelayerTestLog)
    (hdate : parseISO (dateToISO l.testTime) = some l.testTime) :
    decodeLog (encodeLog l) = some l := by
  rcases l with ⟨t, tx, seq, su, lat, tgt, sgn, memo, amt, err⟩
  cases tgt <;> cases sgn <;> cases memo <;> cases amt <;> cases err <;>
    simp [decodeLog, encodeLog, getField, optField, getOptString,
      Json.asString?, Json.asNat?, Json.asInt?, Json.asBool?, hdate]

/-- The serialised snapshot decodes back element by element. -/
theorem decodeLogList_encode (logs : List RelayerTestLog)
    (hdate : ∀ l ∈ logs, parseISO (dateToISO l.testTime) = some l.testTime) :
    decodeLogList (logs.map encodeLog) = some logs := by
  induction logs with
  | nil => rfl
  | cons l rest ih =>
    have hl := hdate l (List.mem_cons_self l rest)
    have hrest := ih (fun x hx => hdate x (List.mem_cons_of_mem l hx))
    simp [decodeLogList, decodeLog_encodeLog l hl, hrest]

/-- C7: saving the observation log and loading it back reproduces an
observation list equal in every field — timestamps included — with no
corruption warning; the hypothesis is the ISO-8601 round trip of the
serialised `Date` values at the timestamps actually present (a property
of the host date formatting, checked concretely in the witness). -/
theorem c7_save_load_round_trip (logs : List RelayerTestLog)
    (hdate : ∀ l ∈ logs, parseISO (dateToISO l.testTime) = some l.testTime) :
    loadExistingLogs (saveLogsFile logs) = (some logs, false) := by
  show (decodeLogList (logs.map encodeLog), (false : Bool)) = (some logs, false)
  rw [decodeLogList_encode logs hdate]

/-- Witness for C7 at a concrete one-observation log. -/
theorem c7_save_load_round_trip_witness :
    loadExistingLogs (saveLogsFile [sampleLog]) = (some [sampleLog], false) :=
  c7_save_load_round_trip [sampleLog] (by
    intro l hl
    rw [List.mem_singleton] at hl
    subst hl
    rfl)

end IBCRelayerTest
